import Mathlib

/-!
Verification development for the MSxDJI synthetic-dataset generator.

The Python sources are shallowly embedded here:

- the scene generation pipeline of im_generator/im_generator.py
  (remove_background, get_bounding_box, sprite placement, background fill,
  create_image orchestration), and
- the annotation-format converter of vott_to_azure/vott_to_azure.py.

Modelling conventions:

- Pixels are tuples of natural numbers; a BGR pixel is (b, g, r) and a BGRA
  pixel is (b, g, r, a), each channel conceptually in [0, 256).
- An image is a height, a width and a total pixel function indexed as
  pix y x (row first, matching numpy indexing img[y, x]).
- The OpenCV grayscale conversion COLOR_BGR2GRAY is embedded with the exact
  fixed-point coefficients OpenCV uses (shift 14, rounding constant 8192).
- cv2.findContours / contourArea / boundingRect are toolkit primitives; they
  are modelled as: the list of connected components (8-connectivity) of the
  binary foreground mask, in raster-scan discovery order, with area taken as
  the pixel count of a component and boundingRect as the min/max extents.
  A flood fill with sufficient fuel computes each component.
- numpy random draws randint(0, n) are modelled with an oracle value r as
  r % n (the support is exactly [0, n)), failing when n = 0 exactly as
  np.random.randint raises ValueError on an empty range.
- Fallible steps (empty contour set, empty randint range) return Option;
  a Python exception that aborts the call is modelled as none.
-/

set_option autoImplicit false

namespace MSxDJI

/-- OpenCV fixed-point BGR to grayscale conversion: round(0.299 r + 0.587 g +
0.114 b) computed as (1868 b + 9617 g + 4899 r + 8192) >> 14. -/
def gray (b g r : Nat) : Nat :=
  (1868 * b + 9617 * g + 4899 * r + 8192) / 16384

/-- A BGR image: height, width and a total pixel function, row index first. -/
structure Img where
  h : Nat
  w : Nat
  pix : Nat → Nat → Nat × Nat × Nat

/-- A BGRA image: height, width and a total pixel function, row index first. -/
structure ImgA where
  h : Nat
  w : Nat
  pix : Nat → Nat → Nat × Nat × Nat × Nat

/-- Embeds remove_background (im_generator.py lines 37-54): threshold the
grayscale at 250 with THRESH_BINARY_INV to obtain the alpha channel (alpha 0
where gray exceeds 250, alpha 255 elsewhere), merge it with the original
channels, then zero every channel of each pixel whose alpha is 0. -/
def remove_background (src : Img) : ImgA :=
  { h := src.h, w := src.w,
    pix := fun y x =>
      let p := src.pix y x
      if 250 < gray p.1 p.2.1 p.2.2 then (0, 0, 0, 0)
      else (p.1, p.2.1, p.2.2, 255) }

/-- Grayscale of a BGRA image: cvtColor COLOR_BGR2GRAY uses the three color
channels and ignores alpha. -/
def grayA (img : ImgA) (y x : Nat) : Nat :=
  let p := img.pix y x
  gray p.1 p.2.1 p.2.2.1

/-- The binarization of get_bounding_box (im_generator.py line 86):
cv2.threshold(gray, 1, 255, THRESH_BINARY) marks a pixel foreground exactly
when its grayscale value is strictly greater than 1. -/
def fgPred (img : ImgA) (p : Nat × Nat) : Bool :=
  decide (1 < grayA img p.1 p.2)

/-- All pixel coordinates (y, x) of an h-by-w image in raster-scan order. -/
def allPts (h w : Nat) : List (Nat × Nat) :=
  (List.range h).flatMap (fun y => (List.range w).map (fun x => (y, x)))

/-- 8-connectivity adjacency: distinct points whose coordinates differ by at
most 1 in each axis (Chebyshev distance 1). -/
def chebAdj (p q : Nat × Nat) : Bool :=
  decide (p ≠ q) && decide (Nat.dist p.1 q.1 ≤ 1) && decide (Nat.dist p.2 q.2 ≤ 1)

/-- One growth step of a flood fill: add every in-bounds foreground pixel not
yet in the component that touches the component. -/
def growStep (fg : Nat × Nat → Bool) (pts : List (Nat × Nat))
    (c : List (Nat × Nat)) : List (Nat × Nat) :=
  c ++ pts.filter (fun p => fg p && !c.contains p && c.any (fun q => chebAdj p q))

/-- Fueled flood fill from a seed pixel: the connected component of the seed
once the fuel reaches the component diameter. -/
def flood (fg : Nat × Nat → Bool) (pts : List (Nat × Nat))
    (seed : Nat × Nat) : Nat → List (Nat × Nat)
  | 0 => [seed]
  | n + 1 => growStep fg pts (flood fg pts seed n)

/-- Raster scan collecting one flood-filled component per unvisited foreground
pixel: the model of the component list cv2.findContours(RETR_EXTERNAL)
produces. -/
def componentsAux (fg : Nat × Nat → Bool) (pts : List (Nat × Nat)) (fuel : Nat) :
    List (Nat × Nat) → List (Nat × Nat) → List (List (Nat × Nat))
  | [], _ => []
  | p :: rest, visited =>
    if fg p && !visited.contains p then
      flood fg pts p fuel ::
        componentsAux fg pts fuel rest (visited ++ flood fg pts p fuel)
    else componentsAux fg pts fuel rest visited

/-- The connected foreground components of an image under the binarization of
get_bounding_box. -/
def findComponents (img : ImgA) : List (List (Nat × Nat)) :=
  componentsAux (fgPred img) (allPts img.h img.w) (img.h * img.w)
    (allPts img.h img.w) []

/-- Embeds max(contours, key=cv2.contourArea) with area modelled as the pixel
count of a component; like the Python max, an earlier maximum wins ties. -/
def maxByArea : List (List (Nat × Nat)) → Option (List (Nat × Nat))
  | [] => none
  | c :: cs =>
    match maxByArea cs with
    | none => some c
    | some b => if c.length < b.length then some b else some c

/-- Embeds cv2.boundingRect of a component: (x, y, w, h) with x, y the minimal
column and row and w, h the extents. -/
def rectOf (c : List (Nat × Nat)) : Nat × Nat × Nat × Nat :=
  match (c.map Prod.snd).min?, (c.map Prod.fst).min?,
        (c.map Prod.snd).max?, (c.map Prod.fst).max? with
  | some x, some y, some xM, some yM => (x, y, xM - x + 1, yM - y + 1)
  | _, _, _, _ => (0, 0, 0, 0)

/-- The record returned by get_bounding_box (keys img, size, thresh). -/
structure SpriteData where
  img : ImgA
  size : Nat × Nat
  thresh : Nat → Nat → Bool

/-- The crop of an image to the bounding rectangle r = (x, y, w, h): the
slice img[y:y+h, x:x+w] together with its size (w, h) and the binary mask
re-thresholded inside the crop (im_generator.py lines 93-101). -/
def crop_sprite (img : ImgA) (r : Nat × Nat × Nat × Nat) : SpriteData :=
  let cropped : ImgA :=
    { h := r.2.2.2, w := r.2.2.1, pix := fun i j => img.pix (r.2.1 + i) (r.1 + j) }
  { img := cropped,
    size := (r.2.2.1, r.2.2.2),
    thresh := fun i j => fgPred cropped (i, j) }

/-- Embeds get_bounding_box (im_generator.py lines 73-101): binarize at
grayscale greater than 1, take the external components, pick the one of
largest area, compute its bounding rectangle, crop the image to it and
recompute the binary mask inside the crop. The Python ValueError raised by
max on an empty contour list is modelled as none. -/
def get_bounding_box (img : ImgA) : Option SpriteData :=
  (maxByArea (findComponents img)).map (fun c => crop_sprite img (rectOf c))

/-- The concrete test scene of the specification: a 100-by-100 image that is
all white except for a 50-by-50 solid square of color v whose top-left corner
sits at row 25, column 25. -/
def squareScene (v : Nat × Nat × Nat) : Img :=
  { h := 100, w := 100,
    pix := fun y x =>
      if 25 ≤ y ∧ y < 75 ∧ 25 ≤ x ∧ x < 75 then v else (255, 255, 255) }

/-- The canvas size constant DIMENSION = (600, 800): height 600, width 800. -/
def DIMENSION : Nat × Nat := (600, 800)

/-- Embeds the placement loop body (im_generator.py lines 113-126): inside the
region of sprite size rooted at column x, row y, the canvas pixel is blacked
out where the mask is set (bitwise_and with the inverted mask) and the sprite
pixel, kept only where the mask is set, is added; outside the mask the
saturating cv2.add leaves the canvas value, inside it the sprite value. -/
def place_sprite (output : ImgA) (s : SpriteData) (x y : Nat) : ImgA :=
  { output with
    pix := fun i j =>
      if y ≤ i ∧ i < y + s.size.2 ∧ x ≤ j ∧ j < x + s.size.1 then
        if s.thresh (i - y) (j - x) then s.img.pix (i - y) (j - x)
        else output.pix i j
      else output.pix i j }

/-- Embeds one entry of place_pts (im_generator.py lines 109-110):
np.random.randint(0, W - w) raises ValueError when the range is empty, that
is exactly when w is at least W; otherwise the draw is some value of
[0, W - w), modelled as the oracle value rx reduced mod W - w. -/
def choose_placement (W H w h rx ry : Nat) : Option (Nat × Nat) :=
  if W ≤ w ∨ H ≤ h then none
  else some (rx % (W - w), ry % (H - h))

/-- The fixed background palette ms_colors (BGR). -/
def ms_colors : List (Nat × Nat × Nat) :=
  [(0, 187, 255), (0, 187, 124), (241, 161, 0), (20, 83, 246)]

/-- Embeds the background fill (im_generator.py lines 136-139): every pixel
whose alpha channel is at most 100 is overwritten with the palette color of
index colorR mod 4 at alpha 255. -/
def fill_background (cv : ImgA) (colorR : Nat) : ImgA :=
  let c := ms_colors.getD (colorR % 4) (0, 0, 0)
  { cv with
    pix := fun y x =>
      let p := cv.pix y x
      if p.2.2.2 ≤ 100 then (c.1, c.2.1, c.2.2, 255) else p }

/-- The blank canvas np.zeros((600, 800, 4)). -/
def zeros_canvas : ImgA :=
  { h := DIMENSION.1, w := DIMENSION.2, pix := fun _ _ => (0, 0, 0, 0) }

/-- The random oracle of one scene: each numpy draw of create_image reads one
value (or one value per index i) from this record. -/
structure Rnd where
  cntR : Nat
  idR : Nat → Nat
  imgNoR : Nat → Nat
  xR : Nat → Nat
  yR : Nat → Nat
  colorR : Nat

/-- fruit_cnt = np.random.randint(1, 4), a value of the set 1, 2, 3. -/
def fruit_cnt (r : Rnd) : Nat := 1 + r.cntR % 3

/-- fruit_ids entry i: np.random.randint(0, len(labels)). -/
def fruit_id (labels : List (String × Nat)) (r : Rnd) (i : Nat) : Nat :=
  r.idR i % labels.length

/-- The instance count labels[fruit_ids[i]][1] of the label drawn at index i. -/
def inst_count (labels : List (String × Nat)) (r : Rnd) (i : Nat) : Nat :=
  (labels.getD (fruit_id labels r i) ("", 0)).2

/-- Sequencing of a list of fallible computations: the embedding of a Python
list comprehension whose body may raise (the first raise aborts the whole
comprehension). -/
def optMapM {α β : Type} (f : α → Option β) : List α → Option (List β)
  | [] => some []
  | a :: as =>
    match f a, optMapM f as with
    | some b, some bs => some (b :: bs)
    | _, _ => none

/-- Load, background-remove, augment and extract the sprite of draw i.
np.random.randint(0, count) raises when the label directory is empty
(count 0); the augmentation seq.augment_images is an external randomized
toolkit primitive and is passed in as the function aug. -/
def sprite_at (labels : List (String × Nat)) (load : Nat → Nat → Img)
    (aug : ImgA → ImgA) (r : Rnd) (i : Nat) : Option SpriteData :=
  if inst_count labels r i = 0 then none
  else
    get_bounding_box
      (aug (remove_background
        (load (fruit_id labels r i) (r.imgNoR i % inst_count labels r i))))

/-- The placement draw for sprite i: x against canvas width 800, y against
canvas height 600. -/
def placement_at (s : SpriteData) (r : Rnd) (i : Nat) : Option (Nat × Nat) :=
  choose_placement DIMENSION.2 DIMENSION.1 s.size.1 s.size.2 (r.xR i) (r.yR i)

/-- Sprite and placement of draw i; none when either step raises. -/
def scene_item (labels : List (String × Nat)) (load : Nat → Nat → Img)
    (aug : ImgA → ImgA) (r : Rnd) (i : Nat) :
    Option (SpriteData × Nat × Nat) :=
  (sprite_at labels load aug r i).bind fun s =>
    (placement_at s r i).map fun p => (s, p.1, p.2)

/-- The normalized bounding box recorded for a placement (im_generator.py
lines 129-131): (x / 800, y / 600, w / 800, h / 600) with Python true
division embedded as rational division. -/
def mk_bbox (s : SpriteData) (x y : Nat) : ℚ × ℚ × ℚ × ℚ :=
  ((x : ℚ) / (DIMENSION.2 : ℚ), (y : ℚ) / (DIMENSION.1 : ℚ),
   (s.size.1 : ℚ) / (DIMENSION.2 : ℚ), (s.size.2 : ℚ) / (DIMENSION.1 : ℚ))

/-- Embeds create_image (im_generator.py lines 15-140): draw the scene
configuration, prepare one sprite per draw, place them in draw order on the
blank canvas, record the normalized annotations in the same order, then fill
the background with one palette color. An empty label list makes the very
first randint raise, hence none. -/
def create_image (labels : List (String × Nat)) (load : Nat → Nat → Img)
    (aug : ImgA → ImgA) (r : Rnd) :
    Option (ImgA × List (Nat × (ℚ × ℚ × ℚ × ℚ))) :=
  if labels.length = 0 then none
  else
    match optMapM (scene_item labels load aug r) (List.range (fruit_cnt r)) with
    | none => none
    | some items =>
      let canvas :=
        items.foldl (fun cv it => place_sprite cv it.1 it.2.1 it.2.2) zeros_canvas
      let annos :=
        List.zipWith (fun i it => (fruit_id labels r i, mk_bbox it.1 it.2.1 it.2.2))
          (List.range (fruit_cnt r)) items
      some (fill_background canvas r.colorR, annos)

/-! ### The label catalog scan (im_generator.py lines 24-25 and 154-158) -/

/-- A directory tree: a name, a number of plain files, and subdirectories. -/
inductive FSTree where
  | node (name : String) (files : Nat) (subs : List FSTree)

/-- The directory name of a tree node. -/
def FSTree.nameOf : FSTree → String
  | .node n _ _ => n

/-- The plain-file count of a tree node. -/
def FSTree.filesOf : FSTree → Nat
  | .node _ f _ => f

/-- The subdirectory list of a tree node. -/
def FSTree.subsOf : FSTree → List FSTree
  | .node _ _ s => s

mutual

/-- One os.walk entry per directory, top-down: the directory itself first,
then its subtrees in order. The entry name is the walk path with the dataset
root path replaced by the empty string, so a nested directory appears as
parent/child. -/
def walkTree (pre : String) : FSTree → List (String × Nat)
  | .node name files subs =>
    (pre ++ name, files) :: walkForest (pre ++ name ++ "/") subs

/-- os.walk entries of a list of sibling subtrees, in order. -/
def walkForest (pre : String) : List FSTree → List (String × Nat)
  | [] => []
  | t :: ts => walkTree pre t ++ walkForest pre ts

end

/-- os.walk over an optional root: a missing root yields no entries at all
rather than an error. The entry of the root directory itself carries the
empty name, since a.replace(IMG_PATH + dataset, ...) erases the whole root
path from it. -/
def os_walk : Option FSTree → List (String × Nat)
  | none => []
  | some (.node _ files subs) => ("", files) :: walkForest "" subs

/-- Embeds the label scan (im_generator.py lines 24-25): every os.walk entry
but the first, as pairs of root-relative path and file count. -/
def build_labels (root : Option FSTree) : List (String × Nat) :=
  (os_walk root).drop 1

/-! ### The annotation-format converter (vott_to_azure.py lines 6-24) -/

/-- Python float() restricted to the inputs the converter meets: strip ASCII
whitespace, then an optional sign followed by a decimal literal that carries
at least one digit, with an optional fractional part. Anything else raises
ValueError, modelled as none. -/
def pyFloat (s : String) : Option ℚ :=
  let t := s.toList.filter (fun c => !(c = ' ' || c = '\n' || c = '\t' || c = '\r'))
  let core : List Char → Option ℚ := fun cs =>
    let intPart := cs.takeWhile Char.isDigit
    let rest := cs.dropWhile Char.isDigit
    let frac : Option (List Char) :=
      match rest with
      | [] => some []
      | '.' :: ds => if ds.all Char.isDigit then some ds else none
      | _ => none
    match frac with
    | none => none
    | some ds =>
      if intPart.isEmpty && ds.isEmpty then none
      else
        let iv : ℚ := (intPart.foldl (fun a c => 10 * a + (c.toNat - 48)) 0 : Nat)
        let fv : ℚ := (ds.foldl (fun a c => 10 * a + (c.toNat - 48)) 0 : Nat)
        some (iv + fv / ((10 : ℚ) ^ ds.length))
  match t with
  | '-' :: cs => (core cs).map Neg.neg
  | '+' :: cs => core cs
  | cs => core cs

/-- The loop variable line of vott_to_azure: after the first iteration the
code forgets to split the line read by readline, so the variable holds either
the token list of the first line or the raw text of a later line. -/
inductive LineVal where
  | toks (l : List String)
  | raw (s : String)

/-- Python truthiness of the loop variable: a non-empty list or string. -/
def LineVal.truthy : LineVal → Bool
  | .toks l => !l.isEmpty
  | .raw s => !s.isEmpty

/-- line[0]: the first token of a split line, or the first character of a raw
line as a one-character string. -/
def LineVal.idOf : LineVal → Option String
  | .toks l => l.head?
  | .raw s => (s.toList.head?).map (fun c => String.mk [c])

/-- The list comprehension [float(value) for value in line[1:5]]: a slice of
four tokens of a split line, but a slice of four characters of a raw line. -/
def LineVal.bboxOf : LineVal → Option (List ℚ)
  | .toks l => optMapM pyFloat ((l.drop 1).take 4)
  | .raw s => optMapM (fun c => pyFloat (String.mk [c])) ((s.toList.drop 1).take 4)

/-- Embeds the while loop of vott_to_azure (vott_to_azure.py lines 14-20):
process the current loop value, then read the next line without splitting it.
A ValueError of float(), or indexing an empty value, aborts the call. -/
def convertLoop (rest : List String) (line : LineVal) :
    Except Unit (List (String × List ℚ)) :=
  if line.truthy then
    match line.idOf, line.bboxOf with
    | some i, some bb =>
      match rest with
      | [] => .ok [(i, bb)]
      | l :: ls => (convertLoop ls (.raw l)).map (fun es => (i, bb) :: es)
    | _, _ => .error ()
  else .ok []

/-- Python str.split with an explicit one-character separator, over the
character list: consecutive separators yield empty fields and the split of an
empty string is a single empty field, as in Python. -/
def splitChars (sep : Char) : List Char → List String
  | [] => [""]
  | c :: cs =>
    let r := splitChars sep cs
    if c = sep then "" :: r
    else
      match r with
      | [] => [String.mk [c]]
      | t :: ts => String.mk (c :: t.toList) :: ts

/-- Python str.split(" ") on a string. -/
def pySplit (sep : Char) (s : String) : List String :=
  splitChars sep s.toList

/-- Embeds the per-file body of vott_to_azure: the file is its list of raw
lines, each still carrying its trailing newline; only the first readline
result is split on a space character. -/
def vott_process_file (lines : List String) : Except Unit (List (String × List ℚ)) :=
  match lines with
  | [] => convertLoop [] (.toks (pySplit ' ' ""))
  | l :: ls => convertLoop ls (.toks (pySplit ' ' l))

/-- The JSON key of a processed file: file.replace with the .txt suffix
erased. -/
def vott_key (filename : String) : String :=
  filename.replace ".txt" ""

/-- A placeholder sprite used only as the default value of Option.getD. -/
def dflt_sprite : SpriteData :=
  { img := zeros_canvas, size := (0, 0), thresh := fun _ _ => false }

/-- A placeholder scene used only as the default value of Option.getD. -/
def dflt_scene : ImgA × List (Nat × (ℚ × ℚ × ℚ × ℚ)) := (zeros_canvas, [])

/-! ### Helper lemmas about the embedding -/

theorem optMapM_length {α β : Type} {f : α → Option β} :
    ∀ {l : List α} {l' : List β}, optMapM f l = some l' → l'.length = l.length := by
  intro l
  induction l with
  | nil => intro l' h; simp only [optMapM] at h; cases h; rfl
  | cons a as ih =>
    intro l' h
    simp only [optMapM] at h
    cases hfa : f a with
    | none => rw [hfa] at h; cases h
    | some b =>
      rw [hfa] at h
      cases hrest : optMapM f as with
      | none => rw [hrest] at h; cases h
      | some bs =>
        rw [hrest] at h
        cases h
        simp [ih hrest]

theorem optMapM_getElem {α β : Type} {f : α → Option β} :
    ∀ {l : List α} {l' : List β}, optMapM f l = some l' →
      ∀ i (hi : i < l.length) (hi' : i < l'.length), f l[i] = some l'[i] := by
  intro l
  induction l with
  | nil => intro l' _ i hi; exact absurd hi (by simp)
  | cons a as ih =>
    intro l' h i hi hi'
    simp only [optMapM] at h
    cases hfa : f a with
    | none => rw [hfa] at h; cases h
    | some b =>
      rw [hfa] at h
      cases hrest : optMapM f as with
      | none => rw [hrest] at h; cases h
      | some bs =>
        rw [hrest] at h
        cases h
        cases i with
        | zero => simpa using hfa
        | succ k =>
          have hk : k < as.length := by simpa using hi
          have hk' : k < bs.length := by
            have := optMapM_length hrest
            omega
          simpa using ih hrest k hk hk'

theorem optMapM_none {α β : Type} {f : α → Option β} {a : α} :
    ∀ {l : List α}, a ∈ l → f a = none → optMapM f l = none := by
  intro l
  induction l with
  | nil => intro h; cases h
  | cons b bs ih =>
    intro hmem hfa
    rcases List.mem_cons.mp hmem with rfl | hmem
    · simp [optMapM, hfa]
    · simp only [optMapM]
      rw [ih hmem hfa]
      cases f b <;> rfl

theorem mem_allPts {h w : Nat} {p : Nat × Nat} :
    p ∈ allPts h w ↔ p.1 < h ∧ p.2 < w := by
  obtain ⟨y, x⟩ := p
  simp only [allPts, List.mem_flatMap, List.mem_map, List.mem_range]
  constructor
  · rintro ⟨y', hy', x', hx', heq⟩
    cases heq
    exact ⟨hy', hx'⟩
  · rintro ⟨hy, hx⟩
    exact ⟨y, hy, x, hx, rfl⟩

theorem contains_iff_mem {p : Nat × Nat} {l : List (Nat × Nat)} :
    l.contains p = true ↔ p ∈ l := by
  simp [List.contains, List.elem_iff]

theorem seed_mem_flood {fg : Nat × Nat → Bool} {pts : List (Nat × Nat)}
    {seed : Nat × Nat} : ∀ n, seed ∈ flood fg pts seed n := by
  intro n
  induction n with
  | zero => simp [flood]
  | succ k ih => exact List.mem_append_left _ ih

theorem flood_subset_succ {fg : Nat × Nat → Bool} {pts : List (Nat × Nat)}
    {seed q : Nat × Nat} {n : Nat} (hq : q ∈ flood fg pts seed n) :
    q ∈ flood fg pts seed (n + 1) :=
  List.mem_append_left _ hq

theorem flood_mono {fg : Nat × Nat → Bool} {pts : List (Nat × Nat)}
    {seed q : Nat × Nat} {n m : Nat} (hnm : n ≤ m)
    (hq : q ∈ flood fg pts seed n) : q ∈ flood fg pts seed m := by
  induction m with
  | zero => exact Nat.le_zero.mp hnm ▸ hq
  | succ k ih =>
    rcases Nat.lt_or_ge n (k + 1) with hlt | hge
    · exact flood_subset_succ (ih (Nat.lt_succ_iff.mp hlt))
    · exact Nat.le_antisymm hnm hge ▸ hq

theorem flood_mem {fg : Nat × Nat → Bool} {pts : List (Nat × Nat)}
    {seed q : Nat × Nat} : ∀ {n}, q ∈ flood fg pts seed n →
      q = seed ∨ (q ∈ pts ∧ fg q = true) := by
  intro n
  induction n with
  | zero => intro h; left; simpa [flood] using h
  | succ k ih =>
    intro h
    rcases List.mem_append.mp h with hc | hf
    · exact ih hc
    · right
      have hmem := List.mem_filter.mp hf
      refine ⟨hmem.1, ?_⟩
      have := hmem.2
      simp only [Bool.and_eq_true] at this
      exact this.1.1

/-- Membership in the axis-aligned rectangle of rows [r0, r0 + rh) and
columns [c0, c0 + cw). -/
def inRect (r0 rh c0 cw : Nat) (p : Nat × Nat) : Prop :=
  r0 ≤ p.1 ∧ p.1 < r0 + rh ∧ c0 ≤ p.2 ∧ p.2 < c0 + cw

instance (r0 rh c0 cw : Nat) (p : Nat × Nat) : Decidable (inRect r0 rh c0 cw p) := by
  unfold inRect; infer_instance

/-- One coordinate step from a toward b. -/
def stepToward (a b : Nat) : Nat :=
  if a < b then a + 1 else if b < a then a - 1 else a

theorem stepToward_between {lo hi a b : Nat} (ha1 : lo ≤ a) (ha2 : a < hi)
    (hb1 : lo ≤ b) (hb2 : b < hi) : lo ≤ stepToward a b ∧ stepToward a b < hi := by
  unfold stepToward
  split_ifs <;> omega

theorem stepToward_dist_le {a b n : Nat} (h : Nat.dist a b ≤ n + 1) :
    Nat.dist (stepToward a b) b ≤ n := by
  simp only [Nat.dist] at h ⊢
  unfold stepToward
  split_ifs <;> omega

theorem stepToward_adj_dist (a b : Nat) : Nat.dist a (stepToward a b) ≤ 1 := by
  simp only [Nat.dist]
  unfold stepToward
  split_ifs <;> omega

theorem stepToward_eq_iff {a b : Nat} : stepToward a b = a ↔ a = b := by
  unfold stepToward
  split_ifs <;> omega

theorem flood_rect_complete {fg : Nat × Nat → Bool} {pts : List (Nat × Nat)}
    {r0 rh c0 cw : Nat} {seed : Nat × Nat}
    (hfg : ∀ p, inRect r0 rh c0 cw p → fg p = true)
    (hpts : ∀ p, inRect r0 rh c0 cw p → p ∈ pts)
    (hseed : inRect r0 rh c0 cw seed) :
    ∀ n q, inRect r0 rh c0 cw q → Nat.dist q.1 seed.1 ≤ n →
      Nat.dist q.2 seed.2 ≤ n → q ∈ flood fg pts seed n := by
  intro n
  induction n with
  | zero =>
    intro q hq h1 h2
    have e1 : q.1 = seed.1 := Nat.eq_of_dist_eq_zero (Nat.le_zero.mp h1)
    have e2 : q.2 = seed.2 := Nat.eq_of_dist_eq_zero (Nat.le_zero.mp h2)
    have : q = seed := Prod.ext e1 e2
    simp [flood, this]
  | succ k ih =>
    intro q hq h1 h2
    by_cases hqs : q = seed
    · exact flood_mono (Nat.zero_le _) (by simp [flood, hqs])
    · set q' : Nat × Nat := (stepToward q.1 seed.1, stepToward q.2 seed.2) with hq'
      have hq'rect : inRect r0 rh c0 cw q' := by
        obtain ⟨a1, a2, a3, a4⟩ := hq
        obtain ⟨b1, b2, b3, b4⟩ := hseed
        exact ⟨(stepToward_between a1 a2 b1 b2).1, (stepToward_between a1 a2 b1 b2).2,
               (stepToward_between a3 a4 b3 b4).1, (stepToward_between a3 a4 b3 b4).2⟩
      have hq'mem : q' ∈ flood fg pts seed k :=
        ih q' hq'rect (stepToward_dist_le h1) (stepToward_dist_le h2)
      by_cases hqk : q ∈ flood fg pts seed k
      · exact flood_subset_succ hqk
      · have hne : q ≠ q' := by
          intro he
          apply hqs
          have e1 : stepToward q.1 seed.1 = q.1 := by
            have := congrArg Prod.fst he; simp [hq'] at this; omega
          have e2 : stepToward q.2 seed.2 = q.2 := by
            have := congrArg Prod.snd he; simp [hq'] at this; omega
          exact Prod.ext (stepToward_eq_iff.mp e1) (stepToward_eq_iff.mp e2)
        refine List.mem_append_right _ (List.mem_filter.mpr ⟨hpts q hq, ?_⟩)
        have hcont : (flood fg pts seed k).contains q = false := by
          cases hc : (flood fg pts seed k).contains q
          · rfl
          · exact absurd (contains_iff_mem.mp hc) hqk
        have hadj : chebAdj q q' = true := by
          simp only [chebAdj, Bool.and_eq_true, decide_eq_true_eq]
          exact ⟨⟨hne, stepToward_adj_dist q.1 seed.1⟩, stepToward_adj_dist q.2 seed.2⟩
        have hany : (flood fg pts seed k).any (fun q2 => chebAdj q q2) = true :=
          List.any_eq_true.mpr ⟨q', hq'mem, hadj⟩
        simp only [Bool.and_eq_true, Bool.not_eq_true']
        exact ⟨⟨hfg q hq, hcont⟩, hany⟩

theorem flood_rect_eq {fg : Nat × Nat → Bool} {pts : List (Nat × Nat)}
    {r0 rh c0 cw fuel : Nat} {seed : Nat × Nat}
    (hfg : ∀ p, fg p = true ↔ inRect r0 rh c0 cw p)
    (hpts : ∀ p, inRect r0 rh c0 cw p → p ∈ pts)
    (hseed : inRect r0 rh c0 cw seed)
    (hfh : rh ≤ fuel) (hfw : cw ≤ fuel) :
    ∀ q, q ∈ flood fg pts seed fuel ↔ inRect r0 rh c0 cw q := by
  intro q
  constructor
  · intro hq
    rcases flood_mem hq with rfl | ⟨_, hfgq⟩
    · exact hseed
    · exact (hfg q).mp hfgq
  · intro hq
    refine flood_rect_complete (fun p hp => (hfg p).mpr hp) hpts hseed fuel q hq ?_ ?_
    · obtain ⟨a1, a2, _, _⟩ := hq
      obtain ⟨b1, b2, _, _⟩ := hseed
      simp only [Nat.dist]
      omega
    · obtain ⟨_, _, a3, a4⟩ := hq
      obtain ⟨_, _, b3, b4⟩ := hseed
      simp only [Nat.dist]
      omega

theorem componentsAux_eq_nil_iff {fg : Nat × Nat → Bool} {pts : List (Nat × Nat)}
    {fuel : Nat} : ∀ {scan visited : List (Nat × Nat)},
      componentsAux fg pts fuel scan visited = [] ↔
        ∀ p ∈ scan, fg p = true → visited.contains p = true := by
  intro scan
  induction scan with
  | nil => intro visited; simp [componentsAux]
  | cons p rest ih =>
    intro visited
    simp only [componentsAux]
    cases hcond : fg p && !visited.contains p with
    | true =>
      rw [if_pos rfl]
      simp only [Bool.and_eq_true, Bool.not_eq_true'] at hcond
      constructor
      · intro h; cases h
      · intro hall
        have h2 : visited.contains p = true :=
          hall p (List.mem_cons_self p rest) hcond.1
        rw [h2] at hcond
        simp at hcond
    | false =>
      rw [if_neg (by simp)]
      rw [ih]
      constructor
      · intro hall q hq hfq
        rcases List.mem_cons.mp hq with rfl | hq
        · cases hv2 : visited.contains q
          · rw [hfq, hv2] at hcond
            simp at hcond
          · rfl
        · exact hall q hq hfq
      · intro hall q hq hfq
        exact hall q (List.mem_cons_of_mem _ hq) hfq

theorem componentsAux_single {fg : Nat × Nat → Bool} {pts : List (Nat × Nat)}
    {fuel : Nat} (S : Nat × Nat → Prop)
    (hflood : ∀ s, S s → ∀ q, q ∈ flood fg pts s fuel ↔ S q) :
    ∀ {scan visited : List (Nat × Nat)},
      (∀ p ∈ scan, fg p = true ↔ S p) →
      (∀ q, S q → visited.contains q = false) →
      (∃ p ∈ scan, S p) →
      ∃ c, componentsAux fg pts fuel scan visited = [c] ∧ ∀ q, q ∈ c ↔ S q := by
  intro scan
  induction scan with
  | nil =>
    intro visited _ _ hex
    simp at hex
  | cons p rest ih =>
    intro visited hiff hvis hex
    simp only [componentsAux]
    by_cases hSp : S p
    · have hfg : fg p = true := (hiff p (List.mem_cons_self p rest)).mpr hSp
      have hv : visited.contains p = false := hvis p hSp
      have hcond : (fg p && !visited.contains p) = true := by rw [hfg, hv]; rfl
      rw [if_pos hcond]
      refine ⟨flood fg pts p fuel, ?_, hflood p hSp⟩
      have hnil : componentsAux fg pts fuel rest (visited ++ flood fg pts p fuel) = [] := by
        rw [componentsAux_eq_nil_iff]
        intro q hq hfq
        have hSq : S q := (hiff q (List.mem_cons_of_mem _ hq)).mp hfq
        have : q ∈ visited ++ flood fg pts p fuel :=
          List.mem_append_right _ ((hflood p hSp q).mpr hSq)
        exact contains_iff_mem.mpr this
      rw [hnil]
    · have hfg' : fg p = false := by
        cases h : fg p
        · rfl
        · exact absurd ((hiff p (List.mem_cons_self p rest)).mp h) hSp
      have hcond : (fg p && !visited.contains p) = false := by rw [hfg']; rfl
      rw [if_neg (by rw [hcond]; simp)]
      refine ih (fun q hq => hiff q (List.mem_cons_of_mem _ hq)) hvis ?_
      obtain ⟨p0, hp0, hSp0⟩ := hex
      rcases List.mem_cons.mp hp0 with rfl | hp0
      · exact absurd hSp0 hSp
      · exact ⟨p0, hp0, hSp0⟩

theorem maxByArea_eq_none_iff {l : List (List (Nat × Nat))} :
    maxByArea l = none ↔ l = [] := by
  cases l with
  | nil => simp [maxByArea]
  | cons c cs =>
    simp only [maxByArea]
    cases maxByArea cs with
    | none => simp
    | some b =>
      by_cases h : c.length < b.length <;> simp [h]

theorem maxByArea_singleton {c : List (Nat × Nat)} : maxByArea [c] = some c := rfl

theorem rectOf_of_rect {c : List (Nat × Nat)} {r0 rh c0 cw : Nat}
    (hrh : 1 ≤ rh) (hcw : 1 ≤ cw)
    (hc : ∀ q, q ∈ c ↔ inRect r0 rh c0 cw q) :
    rectOf c = (c0, r0, cw, rh) := by
  have hcorner : (r0, c0) ∈ c := (hc (r0, c0)).mpr ⟨le_refl _, by omega, le_refl _, by omega⟩
  have hfar : (r0 + rh - 1, c0 + cw - 1) ∈ c :=
    (hc _).mpr ⟨by omega, by omega, by omega, by omega⟩
  have hxmin : (c.map Prod.snd).min? = some c0 := by
    rw [List.min?_eq_some_iff']
    constructor
    · exact List.mem_map.mpr ⟨(r0, c0), hcorner, rfl⟩
    · intro b hb
      obtain ⟨q, hq, hqe⟩ := List.mem_map.mp hb
      obtain ⟨h1, h2, h3, h4⟩ := (hc q).mp hq
      omega
  have hymin : (c.map Prod.fst).min? = some r0 := by
    rw [List.min?_eq_some_iff']
    constructor
    · exact List.mem_map.mpr ⟨(r0, c0), hcorner, rfl⟩
    · intro b hb
      obtain ⟨q, hq, hqe⟩ := List.mem_map.mp hb
      obtain ⟨h1, h2, h3, h4⟩ := (hc q).mp hq
      omega
  have hxmax : (c.map Prod.snd).max? = some (c0 + cw - 1) := by
    rw [List.max?_eq_some_iff']
    constructor
    · exact List.mem_map.mpr ⟨(r0 + rh - 1, c0 + cw - 1), hfar, rfl⟩
    · intro b hb
      obtain ⟨q, hq, hqe⟩ := List.mem_map.mp hb
      obtain ⟨h1, h2, h3, h4⟩ := (hc q).mp hq
      omega
  have hymax : (c.map Prod.fst).max? = some (r0 + rh - 1) := by
    rw [List.max?_eq_some_iff']
    constructor
    · exact List.mem_map.mpr ⟨(r0 + rh - 1, c0 + cw - 1), hfar, rfl⟩
    · intro b hb
      obtain ⟨q, hq, hqe⟩ := List.mem_map.mp hb
      obtain ⟨h1, h2, h3, h4⟩ := (hc q).mp hq
      omega
  rw [rectOf, hxmin, hymin, hxmax, hymax]
  show (c0, r0, c0 + cw - 1 - c0 + 1, r0 + rh - 1 - r0 + 1) = (c0, r0, cw, rh)
  have e1 : c0 + cw - 1 - c0 + 1 = cw := by omega
  have e2 : r0 + rh - 1 - r0 + 1 = rh := by omega
  rw [e1, e2]

/-! ### The spec test scene, worked through the extractor -/

theorem rb100_pix (y x : Nat) :
    (remove_background (squareScene (100, 100, 100))).pix y x =
      if 25 ≤ y ∧ y < 75 ∧ 25 ≤ x ∧ x < 75 then (100, 100, 100, 255)
      else (0, 0, 0, 0) := by
  by_cases h : 25 ≤ y ∧ y < 75 ∧ 25 ≤ x ∧ x < 75
  · simp only [remove_background, squareScene, if_pos h]
    norm_num [gray]
  · simp only [remove_background, squareScene, if_neg h]
    norm_num [gray]

theorem fg_char_100 (p : Nat × Nat) :
    fgPred (remove_background (squareScene (100, 100, 100))) p = true ↔
      inRect 25 50 25 50 p := by
  obtain ⟨y, x⟩ := p
  simp only [fgPred, grayA, rb100_pix, inRect]
  by_cases h : 25 ≤ y ∧ y < 75 ∧ 25 ≤ x ∧ x < 75
  · simp only [if_pos h]
    norm_num [gray]
    omega
  · simp only [if_neg h]
    norm_num [gray]
    omega

theorem c1_components :
    ∃ c, findComponents (remove_background (squareScene (100, 100, 100))) = [c] ∧
      ∀ q, q ∈ c ↔ inRect 25 50 25 50 q := by
  have hpts : ∀ p, inRect 25 50 25 50 p → p ∈ allPts 100 100 := by
    intro p hp
    obtain ⟨h1, h2, h3, h4⟩ := hp
    exact mem_allPts.mpr ⟨by omega, by omega⟩
  refine componentsAux_single (inRect 25 50 25 50) ?_ ?_ ?_ ?_
  · intro s hs q
    exact flood_rect_eq fg_char_100 hpts hs (by decide) (by decide) q
  · intro p _
    exact fg_char_100 p
  · intro q _
    rfl
  · refine ⟨(25, 25), mem_allPts.mpr ⟨?_, ?_⟩, by omega, by omega, by omega, by omega⟩
    · show (25 : Nat) < 100
      norm_num
    · show (25 : Nat) < 100
      norm_num

theorem c1_extraction :
    get_bounding_box (remove_background (squareScene (100, 100, 100))) =
      some (crop_sprite (remove_background (squareScene (100, 100, 100)))
        (25, 25, 50, 50)) := by
  obtain ⟨c, hc, hset⟩ := c1_components
  have hrect : rectOf c = (25, 25, 50, 50) :=
    rectOf_of_rect (by norm_num) (by norm_num) hset
  rw [get_bounding_box, hc, maxByArea_singleton, Option.map_some', hrect]

theorem rb0_pix (y x : Nat) :
    (remove_background (squareScene (0, 0, 0))).pix y x =
      if 25 ≤ y ∧ y < 75 ∧ 25 ≤ x ∧ x < 75 then (0, 0, 0, 255)
      else (0, 0, 0, 0) := by
  by_cases h : 25 ≤ y ∧ y < 75 ∧ 25 ≤ x ∧ x < 75
  · simp only [remove_background, squareScene, if_pos h]
    norm_num [gray]
  · simp only [remove_background, squareScene, if_neg h]
    norm_num [gray]

theorem fg_black_false (p : Nat × Nat) :
    fgPred (remove_background (squareScene (0, 0, 0))) p = false := by
  obtain ⟨y, x⟩ := p
  simp only [fgPred, grayA, rb0_pix]
  by_cases h : 25 ≤ y ∧ y < 75 ∧ 25 ≤ x ∧ x < 75
  · simp only [if_pos h]
    norm_num [gray]
  · simp only [if_neg h]
    norm_num [gray]

/-! ### Helpers about placement, annotations and the background fill -/

theorem choose_placement_bounds {W H w h rx ry x y : Nat}
    (hc : choose_placement W H w h rx ry = some (x, y)) :
    x + w < W ∧ y + h < H := by
  rw [choose_placement] at hc
  by_cases hd : W ≤ w ∨ H ≤ h
  · rw [if_pos hd] at hc; cases hc
  · rw [if_neg hd] at hc
    push_neg at hd
    have h3 := Option.some.inj hc
    rw [Prod.mk.injEq] at h3
    obtain ⟨e1, e2⟩ := h3
    have m1 : rx % (W - w) < W - w := Nat.mod_lt _ (by omega)
    have m2 : ry % (H - h) < H - h := Nat.mod_lt _ (by omega)
    omega

theorem scene_item_inv {labels : List (String × Nat)} {load : Nat → Nat → Img}
    {aug : ImgA → ImgA} {r : Rnd} {i : Nat} {s : SpriteData} {x y : Nat}
    (h : scene_item labels load aug r i = some (s, x, y)) :
    sprite_at labels load aug r i = some s ∧ placement_at s r i = some (x, y) := by
  rw [scene_item] at h
  cases hs : sprite_at labels load aug r i with
  | none => rw [hs] at h; cases h
  | some s2 =>
    rw [hs] at h
    have h2 : (placement_at s2 r i).map (fun p => (s2, p.1, p.2)) = some (s, x, y) := h
    cases hp : placement_at s2 r i with
    | none => rw [hp] at h2; cases h2
    | some p =>
      rw [hp] at h2
      have h3 : (s2, p.1, p.2) = (s, x, y) := Option.some.inj h2
      rw [Prod.mk.injEq, Prod.mk.injEq] at h3
      have hpxy : p = (x, y) := Prod.ext h3.2.1 h3.2.2
      constructor
      · rw [h3.1]
      · rw [← h3.1, hp, hpxy]

theorem mk_bbox_props {s : SpriteData} {x y : Nat}
    (hx : x + s.size.1 < 800) (hy : y + s.size.2 < 600) :
    0 ≤ (mk_bbox s x y).1 ∧ (mk_bbox s x y).1 < 1 ∧
    0 ≤ (mk_bbox s x y).2.1 ∧ (mk_bbox s x y).2.1 < 1 ∧
    0 ≤ (mk_bbox s x y).2.2.1 ∧ (mk_bbox s x y).2.2.1 < 1 ∧
    0 ≤ (mk_bbox s x y).2.2.2 ∧ (mk_bbox s x y).2.2.2 < 1 ∧
    (mk_bbox s x y).1 + (mk_bbox s x y).2.2.1 ≤ 1 ∧
    (mk_bbox s x y).2.1 + (mk_bbox s x y).2.2.2 ≤ 1 := by
  refine ⟨?_, ?_, ?_, ?_, ?_, ?_, ?_, ?_, ?_, ?_⟩
  · show (0 : ℚ) ≤ (x : ℚ) / 800
    positivity
  · show (x : ℚ) / 800 < 1
    rw [div_lt_one (by norm_num)]
    exact_mod_cast by omega
  · show (0 : ℚ) ≤ (y : ℚ) / 600
    positivity
  · show (y : ℚ) / 600 < 1
    rw [div_lt_one (by norm_num)]
    exact_mod_cast by omega
  · show (0 : ℚ) ≤ (s.size.1 : ℚ) / 800
    positivity
  · show (s.size.1 : ℚ) / 800 < 1
    rw [div_lt_one (by norm_num)]
    exact_mod_cast by omega
  · show (0 : ℚ) ≤ (s.size.2 : ℚ) / 600
    positivity
  · show (s.size.2 : ℚ) / 600 < 1
    rw [div_lt_one (by norm_num)]
    exact_mod_cast by omega
  · show (x : ℚ) / 800 + (s.size.1 : ℚ) / 800 ≤ 1
    rw [div_add_div_same, div_le_one (by norm_num)]
    exact_mod_cast by omega
  · show (y : ℚ) / 600 + (s.size.2 : ℚ) / 600 ≤ 1
    rw [div_add_div_same, div_le_one (by norm_num)]
    exact_mod_cast by omega

theorem fill_alpha (cv : ImgA) (cr y x : Nat) :
    100 < ((fill_background cv cr).pix y x).2.2.2 := by
  simp only [fill_background]
  by_cases h : (cv.pix y x).2.2.2 ≤ 100
  · rw [if_pos h]
    norm_num
  · rw [if_neg h]
    omega

theorem fill_palette (cv : ImgA) (cr y x : Nat)
    (h : (cv.pix y x).2.2.2 ≤ 100) :
    (fill_background cv cr).pix y x =
      ((ms_colors.getD (cr % 4) (0, 0, 0)).1,
       (ms_colors.getD (cr % 4) (0, 0, 0)).2.1,
       (ms_colors.getD (cr % 4) (0, 0, 0)).2.2, 255) := by
  simp only [fill_background]
  rw [if_pos h]

theorem create_image_inv {labels : List (String × Nat)} {load : Nat → Nat → Img}
    {aug : ImgA → ImgA} {r : Rnd} {cv : ImgA}
    {annos : List (Nat × (ℚ × ℚ × ℚ × ℚ))}
    (h : create_image labels load aug r = some (cv, annos)) :
    ∃ items, optMapM (scene_item labels load aug r) (List.range (fruit_cnt r)) = some items ∧
      cv = fill_background
        (items.foldl (fun c it => place_sprite c it.1 it.2.1 it.2.2) zeros_canvas)
        r.colorR ∧
      annos = List.zipWith
        (fun i it => (fruit_id labels r i, mk_bbox it.1 it.2.1 it.2.2))
        (List.range (fruit_cnt r)) items := by
  rw [create_image] at h
  by_cases hlab : labels.length = 0
  · rw [if_pos hlab] at h; cases h
  · rw [if_neg hlab] at h
    cases hm : optMapM (scene_item labels load aug r) (List.range (fruit_cnt r)) with
    | none => rw [hm] at h; cases h
    | some items =>
      rw [hm] at h
      have h2 := Option.some.inj h
      rw [Prod.mk.injEq] at h2
      exact ⟨items, rfl, h2.1.symm, h2.2.symm⟩

theorem walkForest_flat :
    ∀ (ts : List FSTree), (∀ t ∈ ts, t.subsOf = []) →
      walkForest "" ts = ts.map (fun t => (t.nameOf, t.filesOf)) := by
  intro ts
  induction ts with
  | nil => intro _; rfl
  | cons t ts ih =>
    intro h
    cases t with
    | node n f s =>
      have hs : s = [] := h (.node n f s) (List.mem_cons_self _ _)
      subst hs
      show (("" ++ n, f) :: walkForest ("" ++ n ++ "/") []) ++ walkForest "" ts = _
      rw [walkForest]
      have hn : "" ++ n = n := by cases n; rfl
      rw [ih (fun t ht => h t (List.mem_cons_of_mem _ ht))]
      simp [hn, FSTree.nameOf, FSTree.filesOf]

/-! ### Concrete demonstration inputs used by the witnesses -/

/-- A 2 by 2 image with a single dark pixel at the origin on a white
background. -/
def demo_img : Img :=
  { h := 2, w := 2,
    pix := fun y x => if y = 0 ∧ x = 0 then (100, 100, 100) else (255, 255, 255) }

/-- A one-label catalog. -/
def demo_labels : List (String × Nat) := [("apple", 1)]

/-- A loader returning the demonstration image for every request. -/
def demo_load : Nat → Nat → Img := fun _ _ => demo_img

/-- A fixed random oracle: one sprite, placed at x 5, y 7, palette color 0. -/
def demo_rnd : Rnd :=
  { cntR := 0, idR := fun _ => 0, imgNoR := fun _ => 0,
    xR := fun _ => 5, yR := fun _ => 7, colorR := 0 }

/-- A 1 by 1 fully opaque sprite with a fully set mask. -/
def unit_sprite : SpriteData :=
  { img := { h := 1, w := 1, pix := fun _ _ => (1, 2, 3, 255) },
    size := (1, 1), thresh := fun _ _ => true }

/-! ### The claims -/

/-- C3: the claim states that the converter emits one id/bbox entry per line
of every input file, parsing each bbox value as a float. The code only splits
the first readline result, so a two-line file aborts with ValueError when
float is applied to the characters of the raw second line, and an empty file
yields one bogus entry; a one-line file behaves as claimed. The missing
split in the loop is a plain slip against the documented line format, so the
claim stands and the code is wrong. -/
theorem splitChars_ne_nil (sep : Char) : ∀ cs, splitChars sep cs ≠ [] := by
  intro cs
  induction cs with
  | nil => simp [splitChars]
  | cons c cs ih =>
    simp only [splitChars]
    by_cases h : c = sep
    · rw [if_pos h]; simp
    · rw [if_neg h]
      cases hr : splitChars sep cs with
      | nil => simp
      | cons t ts => simp

theorem c3_converter_bug :
    vott_process_file ["0 0.1 0.2 0.3 0.4\n", "1 0.5 0.6 0.7 0.8\n"] = .error () ∧
    vott_process_file [] = .ok [("", [])] ∧
    (∀ (l i : String) (bb : List ℚ),
      (pySplit ' ' l).head? = some i →
      optMapM pyFloat (((pySplit ' ' l).drop 1).take 4) = some bb →
      vott_process_file [l] = .ok [(i, bb)]) := by
  refine ⟨rfl, rfl, ?_⟩
  intro l i bb hid hbb
  show convertLoop [] (.toks (pySplit ' ' l)) = .ok [(i, bb)]
  rw [convertLoop]
  have ht : (LineVal.toks (pySplit ' ' l)).truthy = true := by
    simp only [LineVal.truthy]
    cases hp : pySplit ' ' l with
    | nil => exact absurd hp (splitChars_ne_nil ' ' l.toList)
    | cons t ts => simp
  rw [if_pos ht]
  have hid2 : (LineVal.toks (pySplit ' ' l)).idOf = some i := hid
  have hbb2 : (LineVal.toks (pySplit ' ' l)).bboxOf = some bb := hbb
  rw [hid2, hbb2]

/-- Witness for C3: the single-line clause of the theorem applied to a
concrete line. -/
theorem c3_witness :
    vott_process_file ["0 0.1 0.2 0.3 0.4\n"] =
      .ok [("0", (optMapM pyFloat
        (((pySplit ' ' "0 0.1 0.2 0.3 0.4\n").drop 1).take 4)).getD [])] :=
  c3_converter_bug.2.2 "0 0.1 0.2 0.3 0.4\n" "0" _ rfl rfl

/-- C4: compositing a sprite at (x, y) writes the sprite pixel exactly at the
in-region positions where its mask is set, leaves in-region positions with an
unset mask and all positions outside the region unchanged, and therefore a
later placement overwrites an earlier one wherever its own mask is set. -/
theorem c4_compositing (cv : ImgA) (s : SpriteData) (x y i j : Nat) :
    (y ≤ i → i < y + s.size.2 → x ≤ j → j < x + s.size.1 →
      s.thresh (i - y) (j - x) = true →
      (place_sprite cv s x y).pix i j = s.img.pix (i - y) (j - x)) ∧
    (y ≤ i → i < y + s.size.2 → x ≤ j → j < x + s.size.1 →
      s.thresh (i - y) (j - x) = false →
      (place_sprite cv s x y).pix i j = cv.pix i j) ∧
    (¬(y ≤ i ∧ i < y + s.size.2 ∧ x ≤ j ∧ j < x + s.size.1) →
      (place_sprite cv s x y).pix i j = cv.pix i j) ∧
    (∀ (s2 : SpriteData) (x2 y2 : Nat),
      y2 ≤ i → i < y2 + s2.size.2 → x2 ≤ j → j < x2 + s2.size.1 →
      s2.thresh (i - y2) (j - x2) = true →
      (place_sprite (place_sprite cv s x y) s2 x2 y2).pix i j =
        s2.img.pix (i - y2) (j - x2)) := by
  refine ⟨?_, ?_, ?_, ?_⟩
  · intro h1 h2 h3 h4 hm
    simp only [place_sprite]
    rw [if_pos ⟨h1, h2, h3, h4⟩, if_pos hm]
  · intro h1 h2 h3 h4 hm
    simp only [place_sprite]
    rw [if_pos ⟨h1, h2, h3, h4⟩, if_neg (by rw [hm]; simp)]
  · intro hreg
    simp only [place_sprite]
    rw [if_neg hreg]
  · intro s2 x2 y2 h1 h2 h3 h4 hm
    simp only [place_sprite]
    rw [if_pos ⟨h1, h2, h3, h4⟩, if_pos hm]

/-- Witness for C4 at a concrete canvas, sprite and placement. -/
theorem c4_witness :
    (place_sprite zeros_canvas unit_sprite 3 4).pix 4 3 = (1, 2, 3, 255) ∧
    (place_sprite zeros_canvas unit_sprite 3 4).pix 0 0 = (0, 0, 0, 0) := by
  constructor
  · exact (c4_compositing zeros_canvas unit_sprite 3 4 4 3).1
      (by decide) (by decide) (by decide) (by decide) rfl
  · exact (c4_compositing zeros_canvas unit_sprite 3 4 0 0).2.2.1 (by decide)

/-- C6: background removal sends a pixel of grayscale intensity above 250 to
the all-zero transparent pixel and any other pixel to its own color channels
at alpha 255. -/
theorem c6_background_removal (src : Img) (y x : Nat) :
    (250 < gray (src.pix y x).1 (src.pix y x).2.1 (src.pix y x).2.2 →
      (remove_background src).pix y x = (0, 0, 0, 0)) ∧
    (gray (src.pix y x).1 (src.pix y x).2.1 (src.pix y x).2.2 ≤ 250 →
      (remove_background src).pix y x =
        ((src.pix y x).1, (src.pix y x).2.1, (src.pix y x).2.2, 255)) := by
  constructor
  · intro h
    simp only [remove_background]
    rw [if_pos h]
  · intro h
    simp only [remove_background]
    rw [if_neg (by omega)]

/-- Witness for C6 at a white pixel and at a dark pixel. -/
theorem c6_witness :
    (remove_background (squareScene (0, 0, 0))).pix 0 0 = (0, 0, 0, 0) ∧
    (remove_background (squareScene (0, 0, 0))).pix 25 25 = (0, 0, 0, 255) := by
  constructor
  · exact (c6_background_removal (squareScene (0, 0, 0)) 0 0).1 (by decide)
  · exact (c6_background_removal (squareScene (0, 0, 0)) 25 25).2 (by decide)

/-- C7: the placement draw fails exactly when the sprite width reaches the
canvas width or the sprite height reaches the canvas height; on success the
offsets lie in [0, W - w) and [0, H - h), and every pair in those ranges is
reachable by some oracle values, which is the embedding of a uniform draw
over the ranges. -/
theorem c7_placement (W H w h rx ry : Nat) :
    (choose_placement W H w h rx ry = none ↔ W ≤ w ∨ H ≤ h) ∧
    (∀ x y, choose_placement W H w h rx ry = some (x, y) →
      x < W - w ∧ y < H - h) ∧
    (∀ x y, x < W - w → y < H - h → choose_placement W H w h x y = some (x, y)) := by
  refine ⟨?_, ?_, ?_⟩
  · rw [choose_placement]
    by_cases hd : W ≤ w ∨ H ≤ h
    · rw [if_pos hd]
      simp [hd]
    · rw [if_neg hd]
      simp [hd]
  · intro x y hc
    have := choose_placement_bounds hc
    omega
  · intro x y hxr hyr
    rw [choose_placement, if_neg (by omega)]
    rw [Nat.mod_eq_of_lt hxr, Nat.mod_eq_of_lt hyr]

/-- Witness for C7: a fitting sprite is placed at the oracle offsets, an
oversized one fails. -/
theorem c7_witness :
    choose_placement 800 600 50 40 5 7 = some (5, 7) ∧
    choose_placement 800 600 800 40 5 7 = none := by
  constructor
  · exact (c7_placement 800 600 50 40 5 7).2.2 5 7 (by decide) (by decide)
  · exact (c7_placement 800 600 800 40 5 7).1.mpr (Or.inl (by decide))

/-- C8: bounding-box extraction fails exactly when no binarized foreground
pixel exists in the image, and succeeds otherwise; an extraction failure
propagates directly to a failure of the whole scene attempt, with no internal
retry of the sub-step. -/
theorem c8_empty_mask (img : ImgA) :
    (get_bounding_box img = none ↔
      ∀ p ∈ allPts img.h img.w, fgPred img p = false) ∧
    (∀ (labels : List (String × Nat)) (load : Nat → Nat → Img)
        (aug : ImgA → ImgA) (r : Rnd) (i : Nat), i < fruit_cnt r →
      sprite_at labels load aug r i = none →
      create_image labels load aug r = none) := by
  constructor
  · rw [get_bounding_box]
    constructor
    · intro h p hp
      have hmax : maxByArea (findComponents img) = none := by
        cases hm : maxByArea (findComponents img) with
        | none => rfl
        | some c => rw [hm] at h; cases h
      have hnil : findComponents img = [] := maxByArea_eq_none_iff.mp hmax
      unfold findComponents at hnil
      cases hfg : fgPred img p with
      | false => rfl
      | true =>
        have hc := (componentsAux_eq_nil_iff.mp hnil) p hp hfg
        simp at hc
    · intro hall
      have hnil : findComponents img = [] := by
        unfold findComponents
        rw [componentsAux_eq_nil_iff]
        intro p hp hfg
        rw [hall p hp] at hfg
        cases hfg
      rw [hnil]
      rfl
  · intro labels load aug r i hi hsprite
    rw [create_image]
    by_cases hlab : labels.length = 0
    · rw [if_pos hlab]
    · rw [if_neg hlab]
      have hitem : scene_item labels load aug r i = none := by
        rw [scene_item, hsprite]
        rfl
      have hmm : optMapM (scene_item labels load aug r) (List.range (fruit_cnt r)) = none :=
        optMapM_none (List.mem_range.mpr hi) hitem
      rw [hmm]

/-- A loader returning the extraction-hostile all-black square scene. -/
def blank_load : Nat → Nat → Img := fun _ _ => squareScene (0, 0, 0)

/-- Witness for C8: a scene whose only sprite has no foreground aborts. -/
theorem c8_witness :
    create_image demo_labels blank_load (fun a => a) demo_rnd = none := by
  have hgbb : get_bounding_box (remove_background (squareScene (0, 0, 0))) = none :=
    (c8_empty_mask (remove_background (squareScene (0, 0, 0)))).1.mpr
      (fun p _ => fg_black_false p)
  have hsp : sprite_at demo_labels blank_load (fun a => a) demo_rnd 0 = none := by
    rw [sprite_at, if_neg (by decide)]
    exact hgbb
  exact (c8_empty_mask (remove_background (squareScene (0, 0, 0)))).2
    demo_labels blank_load (fun a => a) demo_rnd 0 (by decide) hsp

/-- C9: a successful scene draws fruit_cnt in the set 1, 2, 3 (and every
value of that set is reachable by some oracle), returns exactly fruit_cnt
annotations, and the annotation at each position carries the label id drawn
at that position. -/
theorem c9_scene_counts (labels : List (String × Nat)) (load : Nat → Nat → Img)
    (aug : ImgA → ImgA) (r : Rnd) (cv : ImgA)
    (annos : List (Nat × (ℚ × ℚ × ℚ × ℚ)))
    (h : create_image labels load aug r = some (cv, annos)) :
    1 ≤ fruit_cnt r ∧ fruit_cnt r ≤ 3 ∧
    annos.length = fruit_cnt r ∧
    annos.map Prod.fst = (List.range (fruit_cnt r)).map (fruit_id labels r) ∧
    (∀ k, 1 ≤ k → k ≤ 3 → ∃ r2 : Rnd, fruit_cnt r2 = k) := by
  obtain ⟨items, hitems, hcv, hannos⟩ := create_image_inv h
  have hlen : items.length = fruit_cnt r := by
    have := optMapM_length hitems
    simpa using this
  refine ⟨?_, ?_, ?_, ?_, ?_⟩
  · show 1 ≤ 1 + r.cntR % 3
    omega
  · show 1 + r.cntR % 3 ≤ 3
    have : r.cntR % 3 < 3 := Nat.mod_lt _ (by norm_num)
    omega
  · rw [hannos, List.length_zipWith, List.length_range, hlen]
    exact Nat.min_self _
  · rw [hannos]
    apply List.ext_getElem
    · simp [hlen]
    · intro n h1 h2
      rw [List.getElem_map, List.getElem_zipWith, List.getElem_map, List.getElem_range]
  · intro k h1 h3
    refine ⟨{ cntR := k - 1, idR := r.idR, imgNoR := r.imgNoR,
              xR := r.xR, yR := r.yR, colorR := r.colorR }, ?_⟩
    show 1 + (k - 1) % 3 = k
    rw [Nat.mod_eq_of_lt (by omega)]
    omega

/-- Witness for C9 on a concrete successful scene. -/
theorem c9_witness :
    ((create_image demo_labels demo_load (fun a => a) demo_rnd).getD dflt_scene).2.length =
      fruit_cnt demo_rnd := by
  have h : create_image demo_labels demo_load (fun a => a) demo_rnd =
      some ((create_image demo_labels demo_load (fun a => a) demo_rnd).getD dflt_scene) := rfl
  exact (c9_scene_counts demo_labels demo_load (fun a => a) demo_rnd _ _ h).2.2.1

/-- C5: every annotation of a successful scene has its four normalized
bounding-box values in [0, 1), with the x extent and y extent sums bounded
by 1. -/
theorem c5_annotations (labels : List (String × Nat)) (load : Nat → Nat → Img)
    (aug : ImgA → ImgA) (r : Rnd) (cv : ImgA)
    (annos : List (Nat × (ℚ × ℚ × ℚ × ℚ)))
    (h : create_image labels load aug r = some (cv, annos)) :
    ∀ a ∈ annos,
      0 ≤ a.2.1 ∧ a.2.1 < 1 ∧
      0 ≤ a.2.2.1 ∧ a.2.2.1 < 1 ∧
      0 ≤ a.2.2.2.1 ∧ a.2.2.2.1 < 1 ∧
      0 ≤ a.2.2.2.2 ∧ a.2.2.2.2 < 1 ∧
      a.2.1 + a.2.2.2.1 ≤ 1 ∧ a.2.2.1 + a.2.2.2.2 ≤ 1 := by
  obtain ⟨items, hitems, hcv, hannos⟩ := create_image_inv h
  have hlen : items.length = fruit_cnt r := by
    have := optMapM_length hitems
    simpa using this
  intro a ha
  rw [hannos] at ha
  obtain ⟨n, hn, hget⟩ := List.mem_iff_getElem.mp ha
  have hn2 : n < (List.range (fruit_cnt r)).length := by
    rw [List.length_zipWith] at hn
    simp only [List.length_range] at hn ⊢
    omega
  have hn3 : n < items.length := by
    rw [List.length_zipWith] at hn
    omega
  rw [List.getElem_zipWith] at hget
  have hsc := optMapM_getElem hitems n hn2 hn3
  rw [List.getElem_range] at hsc
  obtain ⟨hs, hp⟩ := scene_item_inv hsc
  have hb := choose_placement_bounds hp
  rw [← hget]
  exact mk_bbox_props hb.1 hb.2

/-- Witness for C5: the first annotation of a concrete successful scene. -/
theorem c5_witness :
    (0 : ℚ) ≤
      (((create_image demo_labels demo_load (fun a => a) demo_rnd).getD dflt_scene).2.get
        ⟨0, by decide⟩).2.1 := by
  set T := (create_image demo_labels demo_load (fun a => a) demo_rnd).getD dflt_scene with hT
  have h : create_image demo_labels demo_load (fun a => a) demo_rnd = some (T.1, T.2) := rfl
  have hm : T.2.get ⟨0, by decide⟩ ∈ T.2 := List.get_mem _ _ _
  exact (c5_annotations demo_labels demo_load (fun a => a) demo_rnd T.1 T.2 h
    (T.2.get ⟨0, by decide⟩) hm).1

/-- C10: after the background fill every canvas pixel of a successful scene
has alpha above 100; the canvas before compositing is all zero, and the fill
rewrites exactly the pixels whose alpha stayed at most 100 with the single
palette color of the scene at alpha 255. -/
theorem c10_background_fill (labels : List (String × Nat)) (load : Nat → Nat → Img)
    (aug : ImgA → ImgA) (r : Rnd) (cv : ImgA)
    (annos : List (Nat × (ℚ × ℚ × ℚ × ℚ)))
    (h : create_image labels load aug r = some (cv, annos)) :
    (∀ y x, 100 < (cv.pix y x).2.2.2) ∧
    (∀ y x, zeros_canvas.pix y x = (0, 0, 0, 0)) ∧
    (∃ comp : ImgA, cv = fill_background comp r.colorR ∧
      ∀ y x, (comp.pix y x).2.2.2 ≤ 100 →
        cv.pix y x = ((ms_colors.getD (r.colorR % 4) (0, 0, 0)).1,
          (ms_colors.getD (r.colorR % 4) (0, 0, 0)).2.1,
          (ms_colors.getD (r.colorR % 4) (0, 0, 0)).2.2, 255)) := by
  obtain ⟨items, hitems, hcv, hannos⟩ := create_image_inv h
  refine ⟨?_, fun y x => rfl, ?_⟩
  · intro y x
    rw [hcv]
    exact fill_alpha _ _ y x
  · refine ⟨_, hcv, ?_⟩
    intro y x hle
    rw [hcv]
    exact fill_palette _ _ y x hle

/-- Witness for C10 at pixel (0, 0) of a concrete successful scene. -/
theorem c10_witness :
    100 < ((((create_image demo_labels demo_load (fun a => a) demo_rnd).getD
      dflt_scene).1).pix 0 0).2.2.2 := by
  have h : create_image demo_labels demo_load (fun a => a) demo_rnd =
      some ((create_image demo_labels demo_load (fun a => a) demo_rnd).getD dflt_scene) := rfl
  exact (c10_background_fill demo_labels demo_load (fun a => a) demo_rnd _ _ h).1 0 0

/-- C1 (counterexample): on the spec scenario with its solid black square,
background removal keeps the square pixels at zero color channels and alpha
255, the extractor binarization (grayscale above 1) classifies every pixel as
background, and extraction aborts with an empty contour set instead of
returning the claimed 50 by 50 crop; the pixel at (25, 25) also refutes the
claimed equivalence of the binarization with alpha above 0. -/
theorem c1_counterexample :
    get_bounding_box (remove_background (squareScene (0, 0, 0))) = none ∧
    (remove_background (squareScene (0, 0, 0))).pix 25 25 = (0, 0, 0, 255) ∧
    fgPred (remove_background (squareScene (0, 0, 0))) (25, 25) = false := by
  have hnil : findComponents (remove_background (squareScene (0, 0, 0))) = [] := by
    unfold findComponents
    rw [componentsAux_eq_nil_iff]
    intro p hp hfg
    rw [fg_black_false p] at hfg
    cases hfg
  refine ⟨?_, ?_, fg_black_false (25, 25)⟩
  · rw [get_bounding_box, hnil]
    rfl
  · rw [rb0_pix, if_pos (by omega)]

/-- C1 (amended): on the 100 by 100 all-white scene with a 50 by 50 solid
square of grayscale intensity 100 (rather than black) at offset (25, 25), and
the augmentation fixed to the identity, background removal followed by
extraction returns the bounding rectangle (x 25, y 25, w 50, h 50), a crop of
size 50 by 50 whose pixels are the original pixels offset by (25, 25), and a
recomputed mask set at every pixel of the crop; the binarization classifies
exactly the pixels of grayscale intensity above 1 as foreground. -/
theorem c1_amended (i j : Nat) (hi : i < 50) (hj : j < 50) :
    (maxByArea (findComponents (remove_background (squareScene (100, 100, 100))))).map
        rectOf = some (25, 25, 50, 50) ∧
    get_bounding_box (remove_background (squareScene (100, 100, 100))) =
      some (crop_sprite (remove_background (squareScene (100, 100, 100)))
        (25, 25, 50, 50)) ∧
    (crop_sprite (remove_background (squareScene (100, 100, 100)))
      (25, 25, 50, 50)).size = (50, 50) ∧
    (crop_sprite (remove_background (squareScene (100, 100, 100)))
        (25, 25, 50, 50)).img.pix i j =
      (remove_background (squareScene (100, 100, 100))).pix (25 + i) (25 + j) ∧
    (crop_sprite (remove_background (squareScene (100, 100, 100)))
      (25, 25, 50, 50)).thresh i j = true ∧
    (∀ (img : ImgA) (p : Nat × Nat), fgPred img p = true ↔ 1 < grayA img p.1 p.2) := by
  obtain ⟨c, hc, hset⟩ := c1_components
  have hrect : rectOf c = (25, 25, 50, 50) :=
    rectOf_of_rect (by norm_num) (by norm_num) hset
  refine ⟨?_, c1_extraction, rfl, rfl, ?_, ?_⟩
  · rw [hc, maxByArea_singleton, Option.map_some', hrect]
  · exact (fg_char_100 (25 + i, 25 + j)).mpr ⟨by omega, by omega, by omega, by omega⟩
  · intro img p
    simp [fgPred]

/-- Witness for C1 (amended) at the top-left pixel of the crop. -/
theorem c1_amended_witness :
    (crop_sprite (remove_background (squareScene (100, 100, 100)))
      (25, 25, 50, 50)).thresh 0 0 = true :=
  (c1_amended 0 0 (by norm_num) (by norm_num)).2.2.2.2.1

/-- C2 (counterexample): the label scan walks the whole tree, not only the
immediate subdirectories: a root with one immediate subdirectory holding a
nested directory yields two labels; a root without subdirectories, or a
missing root, yields an empty catalog rather than an error. -/
theorem c2_counterexample :
    build_labels (some (FSTree.node "root" 3 [FSTree.node "a" 2 [FSTree.node "b" 1 []]])) =
      [("a", 2), ("a/b", 1)] ∧
    (FSTree.node "root" 3 [FSTree.node "a" 2 [FSTree.node "b" 1 []]]).subsOf.length = 1 ∧
    build_labels (some (FSTree.node "root" 3 [])) = [] ∧
    build_labels none = [] := by
  refine ⟨by decide, rfl, rfl, rfl⟩

/-- C2 (amended): when every immediate subdirectory of the root is itself
flat (holds no nested directories), the catalog is one label per immediate
subdirectory in walk order carrying that subdirectory file count; a missing
root yields an empty catalog, with no error raised. -/
theorem c2_amended (name : String) (files : Nat) (subs : List FSTree)
    (hflat : ∀ t ∈ subs, t.subsOf = []) :
    build_labels none = [] ∧
    build_labels (some (FSTree.node name files subs)) =
      subs.map (fun t => (t.nameOf, t.filesOf)) := by
  refine ⟨rfl, ?_⟩
  show walkForest "" subs = _
  exact walkForest_flat subs hflat

/-- Witness for C2 (amended) on a flat two-label tree. -/
theorem c2_witness :
    build_labels (some (FSTree.node "fruit" 0 [FSTree.node "x" 3 [], FSTree.node "y" 4 []])) =
      [("x", 3), ("y", 4)] := by
  have h := (c2_amended "fruit" 0 [FSTree.node "x" 3 [], FSTree.node "y" 4 []]
    (by intro t ht; simp at ht; rcases ht with rfl | rfl <;> rfl)).2
  simpa [FSTree.nameOf, FSTree.filesOf] using h

end MSxDJI
